import Mathlib

/-!
Verification of the chess-cli-py move engine.

This file shallowly embeds the Python sources:
  * `utils.py` geometry helpers,
  * the piece classes of `models.py` (validity checks, `move`, `get_path`),
  * `algebraic_expression_parser.py`,
  * the `Board` of `chess.py` (`perform_movement`, `_get_possible_pieces`,
    `_is_square_empty`, `_piece_in_the_way`).

Integers stay integers (`Int`); the Python `while` loops of the `get_path`
methods are modelled with an explicit fuel parameter (`pathLoop`), with `none`
standing for a loop that has not reached its destination within the fuel;
Python exceptions become `Except`/explicit error results.  The piece validity
checks and path-step bodies are textually identical between `models.py` and
`chess.py` (the one exception being `King.get_path`, embedded twice), so each
is defined once.
-/

namespace ChessCli

/-- A board coordinate, `models.Position` / the `(row, col)` tuples of
`chess.py`.  `x` is the rank counted from the top, `y` the file. -/
structure Pos where
  x : Int
  y : Int
deriving DecidableEq, Repr

/-- `models.Color`. -/
inductive Color where
  | WHITE
  | BLACK
deriving DecidableEq, Repr

/-- `models.Category`. -/
inductive Category where
  | PAWN
  | ROOK
  | KNIGHT
  | BISHOP
  | QUEEN
  | KING
deriving DecidableEq, Repr

/-- `models.Action`. -/
inductive Action where
  | MOVE
  | CAPTURE
  | CASTLING_KING
  | CASTLING_QUEEN
  | CHECK
  | CHECKMATE
  | PROMOTE
deriving DecidableEq, Repr

/-- `models.Movement` (same dataclass in `chess.py`).  `next_position` is
`None` for the castling movements built by the parser, hence an `Option`;
`current_row`/`current_col` are the disambiguation hints. -/
structure Movement where
  category : Category
  action : Action
  nextPosition : Option Pos
  currentRow : Option Int := none
  currentCol : Option Int := none
  nextCategory : Option Category := none
deriving DecidableEq, Repr

/-- `utils.is_outside_board` (and `Piece._is_outside_board` of `chess.py`):
the destination of the movement is off the 8x8 grid. -/
def is_outside_board (dest : Pos) : Bool :=
  decide (dest.x < 0 ∨ dest.x > 7 ∨ dest.y < 0 ∨ dest.y > 7)

/-- `utils.is_vertical_move`: same file, different rank. -/
def is_vertical_move (pos dest : Pos) : Bool :=
  decide (pos.y = dest.y ∧ pos.x ≠ dest.x)

/-- `utils.is_horizontal_move`: same rank, different file. -/
def is_horizontal_move (pos dest : Pos) : Bool :=
  decide (pos.x = dest.x ∧ pos.y ≠ dest.y)

/-- `utils.is_diagonal_move`: equal absolute coordinate differences
(also true when both are zero). -/
def is_diagonal_move (pos dest : Pos) : Bool :=
  decide ((pos.x - dest.x).natAbs = (pos.y - dest.y).natAbs)

/-- `utils.is_one_step` (and `King._is_one_step`): the taxicab distance is at
most two. -/
def is_one_step (pos dest : Pos) : Bool :=
  decide ((pos.x - dest.x).natAbs + (pos.y - dest.y).natAbs ≤ 2)

/-- `Pawn._is_first_move`: the pawn stands on its colour's starting rank. -/
def pawn_is_first_move (color : Color) (pos : Pos) : Bool :=
  decide ((pos.x = 6 ∧ color = Color.WHITE) ∨ (pos.x = 1 ∧ color = Color.BLACK))

/-- `Pawn._is_valid_move`: on the starting rank the destination rank must be
one of the two advanced ranks, otherwise exactly one rank forward.  The
destination file is not inspected. -/
def pawn_is_valid_move (color : Color) (pos dest : Pos) : Bool :=
  if pawn_is_first_move color pos then
    decide ((color = Color.BLACK ∧ (dest.x = 3 ∨ dest.x = 2)) ∨
      (color = Color.WHITE ∧ (dest.x = 4 ∨ dest.x = 5)))
  else
    decide ((color = Color.BLACK ∧ pos.x + 1 = dest.x) ∨
      (color = Color.WHITE ∧ pos.x - 1 = dest.x))

/-- `Rook._is_valid_move`: horizontal or vertical. -/
def rook_is_valid_move (pos dest : Pos) : Bool :=
  is_horizontal_move pos dest || is_vertical_move pos dest

/-- The eight relative offsets of `Knight.possible_relative_positions`. -/
def knight_offsets : List (Int × Int) :=
  [(-2, 1), (-1, 2), (1, 2), (2, 1), (2, -1), (1, -2), (-1, -2), (-2, -1)]

/-- `Knight._is_valid_move`: the destination is one of the eight offsets. -/
def knight_is_valid_move (pos dest : Pos) : Bool :=
  knight_offsets.any (fun o => decide (Pos.mk (pos.x + o.1) (pos.y + o.2) = dest))

/-- `Bishop._is_valid_move`: equal absolute coordinate differences. -/
def bishop_is_valid_move (pos dest : Pos) : Bool :=
  decide ((pos.x - dest.x).natAbs = (pos.y - dest.y).natAbs)

/-- `Queen._is_valid_move`: a line move or a diagonal move. -/
def queen_is_valid_move (pos dest : Pos) : Bool :=
  (is_horizontal_move pos dest || is_vertical_move pos dest) ||
    is_diagonal_move pos dest

/-- `King._is_valid_move`: a line or diagonal move that is also "one step". -/
def king_is_valid_move (pos dest : Pos) : Bool :=
  ((is_horizontal_move pos dest || is_vertical_move pos dest) ||
    is_diagonal_move pos dest) && is_one_step pos dest

/-- Dispatch a category to its `_is_valid_move` check (the pawn's also needs
its colour). -/
def is_valid_move_for (cat : Category) (color : Color) (pos dest : Pos) : Bool :=
  match cat with
  | Category.PAWN => pawn_is_valid_move color pos dest
  | Category.ROOK => rook_is_valid_move pos dest
  | Category.KNIGHT => knight_is_valid_move pos dest
  | Category.BISHOP => bishop_is_valid_move pos dest
  | Category.QUEEN => queen_is_valid_move pos dest
  | Category.KING => king_is_valid_move pos dest

/-! ### Path computation

Each `get_path` method is a `while curr != dest` loop appending the updated
current square; `pathLoop` runs one loop-step function with fuel. -/

/-- One body of the Python `while curr_position != move.next_position` loop:
if the destination is reached the accumulated list is done, otherwise apply
the per-piece step and record the square.  `none` means the fuel ran out
before the destination was reached (a nonterminating Python loop, for every
fuel). -/
def pathLoop (step : Pos → Pos) (dest : Pos) : Nat → Pos → Option (List Pos)
  | 0, curr => if curr = dest then some [] else none
  | n + 1, curr =>
    if curr = dest then some []
    else
      (pathLoop step dest n (step curr)).map (fun rest => step curr :: rest)

/-- Errors of a `get_path` call: the guard `InvalidMovement` raise, or fuel
exhaustion (the loop never reaches the destination). -/
inductive PathErr where
  | invalid
  | fuel
deriving DecidableEq, Repr

/-- Fuel that dominates the step count of every terminating `get_path` loop:
each such loop needs at most `|dx| + |dy|` steps. -/
def path_fuel (start dest : Pos) : Nat :=
  (start.x - dest.x).natAbs + (start.y - dest.y).natAbs + 1

/-- Run a path loop from the piece's square with the dominating fuel. -/
def run_path (step : Pos → Pos) (start dest : Pos) : Except PathErr (List Pos) :=
  match pathLoop step dest (path_fuel start dest) start with
  | some p => Except.ok p
  | none => Except.error PathErr.fuel

/-- Loop body of `Pawn.get_path`: white pawns step one rank up (decreasing
`x`), black pawns one rank down; the file never changes. -/
def pawn_step (color : Color) (curr : Pos) : Pos :=
  match color with
  | Color.WHITE => Pos.mk (curr.x - 1) curr.y
  | Color.BLACK => Pos.mk (curr.x + 1) curr.y

/-- `Pawn.get_path`: guarded by `_is_valid_move` and the bounds check, then
the stepping loop. -/
def pawn_get_path (color : Color) (pos dest : Pos) : Except PathErr (List Pos) :=
  if ¬ pawn_is_valid_move color pos dest ∨ is_outside_board dest then
    Except.error PathErr.invalid
  else run_path (pawn_step color) pos dest

/-- Loop body of `Rook.get_path`: step the rank toward the destination on a
vertical move (the branch is chosen from the piece's original square),
otherwise step the file. -/
def rook_step (pos dest curr : Pos) : Pos :=
  if is_vertical_move pos dest then
    if curr.x < dest.x then Pos.mk (curr.x + 1) curr.y
    else Pos.mk (curr.x - 1) curr.y
  else
    if curr.y < dest.y then Pos.mk curr.x (curr.y + 1)
    else Pos.mk curr.x (curr.y - 1)

/-- `Rook.get_path`. -/
def rook_get_path (pos dest : Pos) : Except PathErr (List Pos) :=
  if ¬ rook_is_valid_move pos dest ∨ is_outside_board dest then
    Except.error PathErr.invalid
  else run_path (rook_step pos dest) pos dest

/-- `Knight.get_path` returns the empty path unconditionally. -/
def knight_get_path (_pos _dest : Pos) : List Pos := []

/-- Loop body of `Bishop.get_path`: four guarded diagonal steps; when no
guard holds the square is left unchanged (the Python loop then spins
forever). -/
def bishop_step (dest curr : Pos) : Pos :=
  if curr.x < dest.x ∧ curr.y > dest.y then Pos.mk (curr.x + 1) (curr.y - 1)
  else if curr.x > dest.x ∧ curr.y > dest.y then Pos.mk (curr.x - 1) (curr.y - 1)
  else if curr.x > dest.x ∧ curr.y < dest.y then Pos.mk (curr.x - 1) (curr.y + 1)
  else if curr.x < dest.x ∧ curr.y < dest.y then Pos.mk (curr.x + 1) (curr.y + 1)
  else curr

/-- `Bishop.get_path`. -/
def bishop_get_path (pos dest : Pos) : Except PathErr (List Pos) :=
  if ¬ bishop_is_valid_move pos dest ∨ is_outside_board dest then
    Except.error PathErr.invalid
  else run_path (bishop_step dest) pos dest

/-- Loop body of `Queen.get_path`: the four diagonal guards of the bishop,
then horizontal and vertical guards that test the original move direction;
with no guard true the square is unchanged. -/
def queen_step (pos dest curr : Pos) : Pos :=
  if curr.x < dest.x ∧ curr.y > dest.y then Pos.mk (curr.x + 1) (curr.y - 1)
  else if curr.x > dest.x ∧ curr.y > dest.y then Pos.mk (curr.x - 1) (curr.y - 1)
  else if curr.x > dest.x ∧ curr.y < dest.y then Pos.mk (curr.x - 1) (curr.y + 1)
  else if curr.x < dest.x ∧ curr.y < dest.y then Pos.mk (curr.x + 1) (curr.y + 1)
  else if is_horizontal_move pos dest ∧ curr.y < dest.y then Pos.mk curr.x (curr.y + 1)
  else if is_horizontal_move pos dest ∧ curr.y > dest.y then Pos.mk curr.x (curr.y - 1)
  else if is_vertical_move pos dest ∧ curr.x < dest.x then Pos.mk (curr.x + 1) curr.y
  else if is_vertical_move pos dest ∧ curr.x > dest.x then Pos.mk (curr.x - 1) curr.y
  else curr

/-- `Queen.get_path`. -/
def queen_get_path (pos dest : Pos) : Except PathErr (List Pos) :=
  if ¬ queen_is_valid_move pos dest ∨ is_outside_board dest then
    Except.error PathErr.invalid
  else run_path (queen_step pos dest) pos dest

/-- Python's `dx // abs(dx)` guarded by `dx == 0`, the direction of one
coordinate in `models.King.get_path` (exact division, so floor division
agrees with Lean's `Int` division). -/
def sign_dir (dx : Int) : Int :=
  if dx = 0 then 0 else dx / (dx.natAbs : Int)

/-- Loop body of `models.King.get_path`: move one square in the sign
direction of each coordinate difference. -/
def king_sign_step (dest curr : Pos) : Pos :=
  Pos.mk (curr.x + sign_dir (dest.x - curr.x)) (curr.y + sign_dir (dest.y - curr.y))

/-- `models.King.get_path`: only the validity guard (no bounds check), then
sign-direction stepping. -/
def king_get_path_models (pos dest : Pos) : Except PathErr (List Pos) :=
  if ¬ king_is_valid_move pos dest then Except.error PathErr.invalid
  else run_path (king_sign_step dest) pos dest

/-- `chess.King.get_path`: validity and bounds guards, then a loop body
textually identical to `Queen.get_path`'s. -/
def king_get_path_board (pos dest : Pos) : Except PathErr (List Pos) :=
  if ¬ king_is_valid_move pos dest ∨ is_outside_board dest then
    Except.error PathErr.invalid
  else run_path (queen_step pos dest) pos dest

/-! ### Piece `move` methods (`models.py`, `Action.MOVE` case)

Every class's `move` first raises on an out-of-board destination, then raises
if its `_is_valid_move` rejects the destination, and otherwise assigns
`self.position = move.next_position`.  The result is the new position. -/

/-- `move` for a MOVE action, shared shape of all six classes: bounds check,
the category's validity check, then the position assignment. -/
def piece_move_MOVE (cat : Category) (color : Color) (pos dest : Pos) :
    Except Unit Pos :=
  if is_outside_board dest then Except.error ()
  else if is_valid_move_for cat color pos dest then Except.ok dest
  else Except.error ()

/-! ### The `Board` of `chess.py`

`Board.__init__` stores only the piece list (`self.pieces = pieces`); there
is no history and no captured list.  Pieces are mutable entities compared by
identity in Python; the embedding addresses them by their index in the list,
so Python's `piece is not other_piece` becomes an index comparison. -/

/-- A board piece: `category`, `color` and the sole mutable field
`position`. -/
structure Piece where
  category : Category
  color : Color
  position : Pos
deriving DecidableEq, Repr

/-- Board-level error outcomes: the `InvalidMovement` exception, and the
uncaught `TypeError` Python raises when `_get_possible_pieces` has produced
`None` (unimplemented disambiguation) or a `None` destination is
subscripted. -/
inductive BoardErr where
  | invalidMovement
  | typeError
deriving DecidableEq, Repr

/-- Outcome of `Board.perform_movement` with the piece list threaded
explicitly: normal return, a raised error, or a Python loop that never
terminates (`hung`).  Each outcome carries the piece list as it stands at
that point. -/
inductive PerformRes where
  | ok (pieces : List Piece)
  | err (e : BoardErr) (pieces : List Piece)
  | hung (pieces : List Piece)
deriving DecidableEq, Repr

/-- The piece list carried by a `PerformRes`. -/
def PerformRes.pieces : PerformRes → List Piece
  | PerformRes.ok ps => ps
  | PerformRes.err _ ps => ps
  | PerformRes.hung ps => ps

/-- The first list comprehension of `Board._get_possible_pieces`: indices of
the pieces whose category and colour match the request, in list order. -/
def candidate_indices (ps : List Piece) (move : Movement) (color : Color) :
    List Nat :=
  (List.range ps.length).filter fun i =>
    match ps[i]? with
    | some p => decide (p.category = move.category ∧ p.color = color)
    | none => false

/-- `Board._get_possible_pieces`: pawns are further filtered to the
destination's file (subscripting a `None` destination raises `TypeError`);
any other category with a disambiguation hint hits the unimplemented branch
(`# code to infer in this case`) and returns `None`. -/
def get_possible_pieces (ps : List Piece) (move : Movement) (color : Color) :
    Except BoardErr (Option (List Nat)) :=
  let base := candidate_indices ps move color
  if move.category = Category.PAWN then
    match move.nextPosition with
    | none => Except.error BoardErr.typeError
    | some d =>
      Except.ok (some (base.filter fun i =>
        match ps[i]? with
        | some p => decide (p.position.y = d.y)
        | none => false))
  else if move.currentCol ≠ none ∨ move.currentRow ≠ none then
    Except.ok none
  else
    Except.ok (some base)

/-- `Board._is_square_empty`: no piece stands on the given position (every
comparison with a `None` position is false in Python, so a `None` square is
"empty"). -/
def is_square_empty (ps : List Piece) (pos : Option Pos) : Bool :=
  ps.all fun p => decide (some p.position ≠ pos)

/-- `Board._piece_in_the_way`, given the already-computed path of piece `i`:
some other piece (identity, i.e. index, distinct from `i`) stands on a path
square. -/
def piece_in_the_way (ps : List Piece) (i : Nat) (path : List Pos) : Bool :=
  (List.range ps.length).any fun j =>
    decide (j ≠ i) &&
      match ps[j]? with
      | some q => decide (q.position ∈ path)
      | none => false

/-- `get_path` as the Board calls it on a candidate piece (`chess.py`
classes): the Knight's path is unconditionally empty, the King uses the
Queen-shaped loop. -/
def get_path_board (p : Piece) (dest : Pos) : Except PathErr (List Pos) :=
  match p.category with
  | Category.PAWN => pawn_get_path p.color p.position dest
  | Category.ROOK => rook_get_path p.position dest
  | Category.KNIGHT => Except.ok (knight_get_path p.position dest)
  | Category.BISHOP => bishop_get_path p.position dest
  | Category.QUEEN => queen_get_path p.position dest
  | Category.KING => king_get_path_board p.position dest

/-- Result of the candidate `for` loop of `perform_movement`: the final piece
list and `moved` flag, an uncaught `TypeError` (`crashed`), or a
nonterminating `get_path` call (`hung`). -/
inductive LoopRes where
  | done (pieces : List Piece) (moved : Bool)
  | crashed (pieces : List Piece)
  | hung (pieces : List Piece)
deriving DecidableEq, Repr

/-- The candidate loop of `Board.perform_movement`: for each candidate index
in order, skip it when a non-Knight request is obstructed
(`_piece_in_the_way`, whose internal `get_path` raise of `InvalidMovement`
is caught by the `except` and also skips the candidate), then try
`p.move(move)`; on success overwrite the piece and set `moved`.  A `None`
destination would be subscripted inside `move`/`get_path` and raises
`TypeError`, which no `except InvalidMovement` catches. -/
def move_loop (move : Movement) : List Piece → List Nat → Bool → LoopRes
  | ps, [], moved => LoopRes.done ps moved
  | ps, i :: rest, moved =>
    match ps[i]? with
    | none => move_loop move ps rest moved
    | some p =>
      match move.nextPosition with
      | none => LoopRes.crashed ps
      | some d =>
        let try_move : LoopRes :=
          match piece_move_MOVE p.category p.color p.position d with
          | Except.error _ => move_loop move ps rest moved
          | Except.ok newPos =>
            move_loop move (ps.set i { p with position := newPos }) rest true
        if move.category ≠ Category.KNIGHT then
          match get_path_board p d with
          | Except.error PathErr.invalid => move_loop move ps rest moved
          | Except.error PathErr.fuel => LoopRes.hung ps
          | Except.ok path =>
            if piece_in_the_way ps i path then move_loop move ps rest moved
            else try_move
        else try_move

/-- `Board.perform_movement`: compute the candidates, and only for a MOVE
action onto an empty square run the candidate loop, raising
`InvalidMovement` when no candidate moved; every other action (or an
occupied destination) raises `InvalidMovement` directly. -/
def perform_movement (ps : List Piece) (move : Movement) (color : Color) :
    PerformRes :=
  match get_possible_pieces ps move color with
  | Except.error e => PerformRes.err e ps
  | Except.ok cand =>
    if move.action = Action.MOVE ∧ is_square_empty ps move.nextPosition then
      match cand with
      | none => PerformRes.err BoardErr.typeError ps
      | some idxs =>
        match move_loop move ps idxs false with
        | LoopRes.done ps2 moved =>
          if moved then PerformRes.ok ps2
          else PerformRes.err BoardErr.invalidMovement ps2
        | LoopRes.crashed ps2 => PerformRes.err BoardErr.typeError ps2
        | LoopRes.hung ps2 => PerformRes.hung ps2
    else
      PerformRes.err BoardErr.invalidMovement ps

/-! ### The algebraic-notation translator (`algebraic_expression_parser.py`)

`parse` works on the expression's characters; every Python exception
(`IndexError` on a too-short expression, `ValueError` from `int(...)` or
from `Category(...)` on an unknown letter) is modelled as `none`. -/

/-- `Category(letter)`: the enum lookup by its one-letter value, `ValueError`
(`none`) on any other letter. -/
def category_of_letter (c : Char) : Option Category :=
  if c = 'P' then some Category.PAWN
  else if c = 'R' then some Category.ROOK
  else if c = 'N' then some Category.KNIGHT
  else if c = 'B' then some Category.BISHOP
  else if c = 'Q' then some Category.QUEEN
  else if c = 'K' then some Category.KING
  else none

/-- `_letter_to_num`: `ord(letter) - ord('a')`. -/
def letter_to_num (c : Char) : Int :=
  (c.toNat : Int) - ('a'.toNat : Int)

/-- `int(...)` on the one-character row digit, `ValueError` otherwise. -/
def digit_val (c : Char) : Option Int :=
  if c.isDigit then some ((c.toNat : Int) - ('0'.toNat : Int)) else none

/-- `_parse_row`: `8 - int(original_row)`. -/
def parse_row (c : Char) : Option Int :=
  (digit_val c).map (fun n => 8 - n)

/-- `_parse_capture`: `expr[2]`/`expr[3]` are file and row; a lowercase first
letter means a pawn capture, otherwise the letter names the piece. -/
def parse_capture (expr : List Char) : Option Movement :=
  match expr[2]?, expr[3]? with
  | some cCol, some cRow =>
    (parse_row cRow).bind fun row =>
      let col := letter_to_num cCol
      match expr[0]? with
      | none => none
      | some c0 =>
        if c0.toLower = c0 then
          some { category := Category.PAWN, action := Action.CAPTURE,
                 nextPosition := some (Pos.mk row col) }
        else
          (category_of_letter c0).map fun piece =>
            { category := piece, action := Action.CAPTURE,
              nextPosition := some (Pos.mk row col) }
  | _, _ => none

/-- `_parse_check` and `_parse_checkmate` share their shape: a length-3
expression is a pawn move, otherwise the first letter names the piece. -/
def parse_check_or_mate (act : Action) (expr : List Char) : Option Movement :=
  if expr.length = 3 then
    match expr[0]?, expr[1]? with
    | some c0, some c1 =>
      (parse_row c1).map fun row =>
        { category := Category.PAWN, action := act,
          nextPosition := some (Pos.mk row (letter_to_num c0)) }
    | _, _ => none
  else
    match expr[0]?, expr[1]?, expr[2]? with
    | some c0, some c1, some c2 =>
      (category_of_letter c0).bind fun piece =>
        (parse_row c2).map fun row =>
          { category := piece, action := act,
            nextPosition := some (Pos.mk row (letter_to_num c1)) }
    | _, _, _ => none

/-- `_parse_promote`: destination from the first two characters, the
promotion target from the last. -/
def parse_promote (expr : List Char) : Option Movement :=
  match expr[0]?, expr[1]?, expr.getLast? with
  | some c0, some c1, some cLast =>
    (parse_row c1).bind fun row =>
      (category_of_letter cLast).map fun nextCat =>
        { category := Category.PAWN, action := Action.PROMOTE,
          nextPosition := some (Pos.mk row (letter_to_num c0)),
          nextCategory := some nextCat }
  | _, _, _ => none

/-- `_parse_move`: two characters are a pawn move; four characters carry a
disambiguation hint in `expr[1]` (a digit is a row, a letter a column);
anything else reads piece letter, file and row from the first three
characters. -/
def parse_move (expr : List Char) : Option Movement :=
  if expr.length = 2 then
    match expr[0]?, expr[1]? with
    | some c0, some c1 =>
      (parse_row c1).map fun row =>
        { category := Category.PAWN, action := Action.MOVE,
          nextPosition := some (Pos.mk row (letter_to_num c0)) }
    | _, _ => none
  else if expr.length = 4 then
    match expr[0]?, expr[1]?, expr[2]?, expr[3]? with
    | some c0, some c1, some c2, some c3 =>
      (category_of_letter c0).bind fun piece =>
        (parse_row c3).bind fun row =>
          let col := letter_to_num c2
          if c1.isDigit then
            (parse_row c1).map fun currRow =>
              { category := piece, action := Action.MOVE,
                nextPosition := some (Pos.mk row col),
                currentRow := some currRow }
          else
            some { category := piece, action := Action.MOVE,
                   nextPosition := some (Pos.mk row col),
                   currentCol := some (letter_to_num c1) }
    | _, _, _, _ => none
  else
    match expr[0]?, expr[1]?, expr[2]? with
    | some c0, some c1, some c2 =>
      (category_of_letter c0).bind fun piece =>
        (parse_row c2).map fun row =>
          { category := piece, action := Action.MOVE,
            nextPosition := some (Pos.mk row (letter_to_num c1)) }
    | _, _, _ => none

/-- `AlgebraicExpressionParser.parse`: the dispatch chain — capture marker in
`expr[1]`, the two castling strings, a check marker anywhere, a checkmate
marker in the last character, a promotion marker in the second-to-last,
otherwise a plain move. -/
def parse (expr : List Char) : Option Movement :=
  match expr[1]? with
  | none => none
  | some c1 =>
    if c1 = 'x' then parse_capture expr
    else if expr = [ 'O', '-', 'O' ] then
      some { category := Category.KING, action := Action.CASTLING_KING,
             nextPosition := none }
    else if expr = [ 'O', '-', 'O', '-', 'O' ] then
      some { category := Category.KING, action := Action.CASTLING_QUEEN,
             nextPosition := none }
    else if '+' ∈ expr then parse_check_or_mate Action.CHECK expr
    else if expr.getLast? = some '#' then parse_check_or_mate Action.CHECKMATE expr
    else if expr[expr.length - 2]? = some '=' then parse_promote expr
    else parse_move expr

/-! ### Definitions following the claims' words (for comparison theorems) -/

/-- The King rule as the claim spells it: horizontal, vertical, or diagonal,
and taxicab distance at most two. -/
def king_claim_rule (pos dest : Pos) : Bool :=
  decide (((pos.x = dest.x ∧ pos.y ≠ dest.y) ∨
      (pos.y = dest.y ∧ pos.x ≠ dest.x) ∨
      (pos.x - dest.x).natAbs = (pos.y - dest.y).natAbs) ∧
    (pos.x - dest.x).natAbs + (pos.y - dest.y).natAbs ≤ 2)

/-- The pawn MOVE rule with the same-file condition dropped (the amended
claim): a one-rank advance in the pawn's forward direction, or a one- or
two-rank advance from the starting rank, with the destination file
unconstrained. -/
def pawn_rank_rule (color : Color) (pos dest : Pos) : Bool :=
  match color with
  | Color.WHITE =>
    if pos.x = 6 then decide (dest.x = pos.x - 1 ∨ dest.x = pos.x - 2)
    else decide (dest.x = pos.x - 1)
  | Color.BLACK =>
    if pos.x = 1 then decide (dest.x = pos.x + 1 ∨ dest.x = pos.x + 2)
    else decide (dest.x = pos.x + 1)

/-- All pieces of a board stand on pairwise-distinct squares. -/
def distinct_squares (ps : List Piece) : Prop :=
  List.Pairwise (fun a b => a.position ≠ b.position) ps

/-- A square lies on the 8x8 board. -/
def in_bounds (p : Pos) : Prop :=
  0 ≤ p.x ∧ p.x ≤ 7 ∧ 0 ≤ p.y ∧ p.y ≤ 7

/-- The piece list carried by a `LoopRes`. -/
def LoopRes.pieces : LoopRes → List Piece
  | LoopRes.done ps _ => ps
  | LoopRes.crashed ps => ps
  | LoopRes.hung ps => ps

/-! ### Helper lemmas -/

/-- Two squares differ exactly when one coordinate differs. -/
theorem Pos.ne_iff (a b : Pos) : a ≠ b ↔ a.x ≠ b.x ∨ a.y ≠ b.y := by
  constructor
  · intro h
    by_contra hc
    push_neg at hc
    exact h (by cases a; cases b; simp_all)
  · intro h hc
    subst hc
    simp at h

/-- A `while` loop whose step preserves an invariant `I` and strictly
decreases a measure `μ` until the destination is reached terminates within
`μ` steps of fuel, produces a path ending at the destination, and every
recorded square has a smaller measure than the start. -/
theorem pathLoop_terminates (step : Pos → Pos) (dest : Pos) (μ : Pos → Nat)
    (I : Pos → Prop)
    (hstep : ∀ c, I c → c ≠ dest → I (step c) ∧ μ (step c) < μ c) :
    ∀ n curr, I curr → μ curr ≤ n →
      ∃ p, pathLoop step dest n curr = some p ∧
        (curr = dest → p = []) ∧
        (curr ≠ dest → ∃ pre, p = pre ++ [dest]) ∧
        (∀ q ∈ p, μ q < μ curr) := by
  intro n
  induction n with
  | zero =>
    intro curr hI hμ
    by_cases h : curr = dest
    · subst h
      exact ⟨[], by simp [pathLoop], fun _ => rfl, fun hc => absurd rfl hc, by simp⟩
    · exact absurd hμ (by have := (hstep curr hI h).2; omega)
  | succ n ih =>
    intro curr hI hμ
    by_cases h : curr = dest
    · subst h
      exact ⟨[], by simp [pathLoop], fun _ => rfl, fun hc => absurd rfl hc, by simp⟩
    · obtain ⟨hI2, hdec⟩ := hstep curr hI h
      obtain ⟨p, hp, hnil, hlast, hmem⟩ := ih (step curr) hI2 (by omega)
      refine ⟨step curr :: p, ?_, fun hc => absurd hc h, fun _ => ?_, ?_⟩
      · simp [pathLoop, h, hp]
      · by_cases h2 : step curr = dest
        · exact ⟨[], by simp [hnil h2, h2]⟩
        · obtain ⟨pre, hpre⟩ := hlast h2
          exact ⟨step curr :: pre, by simp [hpre]⟩
      · intro q hq
        rcases List.mem_cons.mp hq with h1 | h1
        · subst h1; exact hdec
        · exact lt_trans (hmem q h1) hdec

/-- `run_path` under the same conditions: the dominating fuel suffices
whenever `μ` is below the taxicab bound. -/
theorem run_path_ok (step : Pos → Pos) (start dest : Pos) (μ : Pos → Nat)
    (I : Pos → Prop)
    (hstep : ∀ c, I c → c ≠ dest → I (step c) ∧ μ (step c) < μ c)
    (hI : I start) (hfuel : μ start ≤ path_fuel start dest)
    (hne : start ≠ dest) :
    ∃ p pre, run_path step start dest = Except.ok p ∧ p = pre ++ [dest] ∧
      start ∉ p := by
  obtain ⟨p, hp, _, hlast, hmem⟩ :=
    pathLoop_terminates step dest μ I hstep (path_fuel start dest) start hI hfuel
  obtain ⟨pre, hpre⟩ := hlast hne
  refine ⟨p, pre, ?_, hpre, ?_⟩
  · simp [run_path, hp]
  · intro hc
    exact absurd (hmem start hc) (by omega)

/-- A valid rook move gives a terminating path that ends at the destination
and avoids the origin. -/
theorem rook_path_spec (pos dest : Pos) (hv : rook_is_valid_move pos dest = true)
    (hin : is_outside_board dest = false) :
    ∃ p pre, rook_get_path pos dest = Except.ok p ∧ p = pre ++ [dest] ∧
      pos ∉ p := by
  have hval : (pos.x = dest.x ∧ pos.y ≠ dest.y) ∨
      (pos.y = dest.y ∧ pos.x ≠ dest.x) := by
    simpa [rook_is_valid_move, is_horizontal_move, is_vertical_move] using hv
  have hgo : rook_get_path pos dest = run_path (rook_step pos dest) pos dest := by
    simp [rook_get_path, hv, hin]
  rw [hgo]
  rcases hval with ⟨hx, hy⟩ | ⟨hy, hx⟩
  · have hvert : is_vertical_move pos dest = false := by
      simp [is_vertical_move, hx]
    refine run_path_ok _ _ _ (fun c => (c.y - dest.y).natAbs)
      (fun c => c.x = dest.x) ?_ hx ?_ ?_
    · intro c hI hne
      have hcy : c.y ≠ dest.y := by
        rcases (Pos.ne_iff c dest).mp hne with h | h
        · exact absurd hI h
        · exact h
      simp only [rook_step, hvert, Bool.false_eq_true, if_false]
      by_cases hlt : c.y < dest.y <;> simp [hlt, hI] <;> omega
    · simp [path_fuel]; omega
    · simp [Pos.ne_iff]; tauto
  · have hvert : is_vertical_move pos dest = true := by
      simp [is_vertical_move, hy, hx]
    refine run_path_ok _ _ _ (fun c => (c.x - dest.x).natAbs)
      (fun c => c.y = dest.y) ?_ hy ?_ ?_
    · intro c hI hne
      have hcx : c.x ≠ dest.x := by
        rcases (Pos.ne_iff c dest).mp hne with h | h
        · exact h
        · exact absurd hI h
      simp only [rook_step, hvert, if_true]
      by_cases hlt : c.x < dest.x <;> simp [hlt, hI] <;> omega
    · simp [path_fuel]; omega
    · simp [Pos.ne_iff]; tauto

/-- The bishop step stays on the diagonal through the destination and makes
progress whenever the current square is not the destination. -/
theorem bishop_step_progress (dest c : Pos)
    (hI : (c.x - dest.x).natAbs = (c.y - dest.y).natAbs) (hne : c ≠ dest) :
    ((bishop_step dest c).x - dest.x).natAbs =
        ((bishop_step dest c).y - dest.y).natAbs ∧
      ((bishop_step dest c).x - dest.x).natAbs < (c.x - dest.x).natAbs := by
  have hx : c.x ≠ dest.x := by
    intro h
    have : c.y = dest.y := by omega
    exact hne (by cases c; cases dest; simp_all)
  have hy : c.y ≠ dest.y := by omega
  simp only [bishop_step]
  split_ifs with h1 h2 h3 h4 <;> simp <;> omega

/-- A valid non-null bishop move gives a terminating path ending at the
destination and avoiding the origin. -/
theorem bishop_path_spec (pos dest : Pos)
    (hv : bishop_is_valid_move pos dest = true)
    (hin : is_outside_board dest = false) (hne : pos ≠ dest) :
    ∃ p pre, bishop_get_path pos dest = Except.ok p ∧ p = pre ++ [dest] ∧
      pos ∉ p := by
  have hval : (pos.x - dest.x).natAbs = (pos.y - dest.y).natAbs := by
    simpa [bishop_is_valid_move] using hv
  have hgo : bishop_get_path pos dest = run_path (bishop_step dest) pos dest := by
    simp [bishop_get_path, hv, hin]
  rw [hgo]
  refine run_path_ok _ _ _ (fun c => (c.x - dest.x).natAbs)
    (fun c => (c.x - dest.x).natAbs = (c.y - dest.y).natAbs)
    (fun c hI hcne => bishop_step_progress dest c hI hcne) hval ?_ hne
  simp [path_fuel]; omega


/-- On a horizontal queen move the step walks the file toward the
destination. -/
theorem queen_step_progress_h (pos dest c : Pos)
    (hH : is_horizontal_move pos dest = true)
    (hV : is_vertical_move pos dest = false)
    (hI : c.x = dest.x) (hcy : c.y ≠ dest.y) :
    (queen_step pos dest c).x = dest.x ∧
      ((queen_step pos dest c).y - dest.y).natAbs < (c.y - dest.y).natAbs := by
  simp only [queen_step, hH, hV]
  split_ifs <;> simp_all <;> omega

/-- On a vertical queen move the step walks the rank toward the
destination. -/
theorem queen_step_progress_v (pos dest c : Pos)
    (hH : is_horizontal_move pos dest = false)
    (hV : is_vertical_move pos dest = true)
    (hI : c.y = dest.y) (hcx : c.x ≠ dest.x) :
    (queen_step pos dest c).y = dest.y ∧
      ((queen_step pos dest c).x - dest.x).natAbs < (c.x - dest.x).natAbs := by
  simp only [queen_step, hH, hV]
  split_ifs <;> simp_all <;> omega

/-- On a diagonal queen move the step stays on the diagonal and makes
progress. -/
theorem queen_step_progress_d (pos dest c : Pos)
    (hI : (c.x - dest.x).natAbs = (c.y - dest.y).natAbs) (hcx : c.x ≠ dest.x)
    (hcy : c.y ≠ dest.y) :
    ((queen_step pos dest c).x - dest.x).natAbs =
        ((queen_step pos dest c).y - dest.y).natAbs ∧
      ((queen_step pos dest c).x - dest.x).natAbs < (c.x - dest.x).natAbs := by
  simp only [queen_step]
  split_ifs <;> simp_all <;> omega

/-- A valid non-null queen move gives a terminating path ending at the
destination and avoiding the origin. -/
theorem queen_path_spec (pos dest : Pos)
    (hv : queen_is_valid_move pos dest = true)
    (hin : is_outside_board dest = false) (hne : pos ≠ dest) :
    ∃ p pre, queen_get_path pos dest = Except.ok p ∧ p = pre ++ [dest] ∧
      pos ∉ p := by
  have hgo : queen_get_path pos dest = run_path (queen_step pos dest) pos dest := by
    simp [queen_get_path, hv, hin]
  rw [hgo]
  have hval : (pos.x = dest.x ∧ pos.y ≠ dest.y) ∨
      (pos.y = dest.y ∧ pos.x ≠ dest.x) ∨
      (pos.x - dest.x).natAbs = (pos.y - dest.y).natAbs := by
    simpa [queen_is_valid_move, is_horizontal_move, is_vertical_move,
      is_diagonal_move, or_assoc] using hv
  rcases hval with ⟨hx, hy⟩ | ⟨hy, hx⟩ | hd
  · have hH : is_horizontal_move pos dest = true := by
      simp [is_horizontal_move, hx, hy]
    have hV : is_vertical_move pos dest = false := by
      simp [is_vertical_move, hx]
    refine run_path_ok _ _ _ (fun c => (c.y - dest.y).natAbs)
      (fun c => c.x = dest.x) ?_ hx ?_ hne
    · intro c hI hcne
      have hcy : c.y ≠ dest.y := by
        rcases (Pos.ne_iff c dest).mp hcne with h | h
        exacts [absurd hI h, h]
      exact queen_step_progress_h pos dest c hH hV hI hcy
    · simp [path_fuel]; omega
  · have hH : is_horizontal_move pos dest = false := by
      simp [is_horizontal_move, hy]
    have hV : is_vertical_move pos dest = true := by
      simp [is_vertical_move, hy, hx]
    refine run_path_ok _ _ _ (fun c => (c.x - dest.x).natAbs)
      (fun c => c.y = dest.y) ?_ hy ?_ hne
    · intro c hI hcne
      have hcx : c.x ≠ dest.x := by
        rcases (Pos.ne_iff c dest).mp hcne with h | h
        exacts [h, absurd hI h]
      exact queen_step_progress_v pos dest c hH hV hI hcx
    · simp [path_fuel]; omega
  · refine run_path_ok _ _ _ (fun c => (c.x - dest.x).natAbs)
      (fun c => (c.x - dest.x).natAbs = (c.y - dest.y).natAbs) ?_ hd ?_ hne
    · intro c hI hcne
      have hcx : c.x ≠ dest.x := by
        intro h
        have : c.y = dest.y := by omega
        exact hcne (by cases c; cases dest; simp_all)
      have hcy : c.y ≠ dest.y := by omega
      exact queen_step_progress_d pos dest c hI hcx hcy
    · simp [path_fuel]; omega

/-- `dx // abs(dx)` guarded by zero is the sign of `dx` (the division is
exact, so floor division agrees). -/
theorem sign_dir_cases (dx : Int) :
    (dx < 0 ∧ sign_dir dx = -1) ∨ (dx = 0 ∧ sign_dir dx = 0) ∨
      (0 < dx ∧ sign_dir dx = 1) := by
  rcases lt_trichotomy dx 0 with h | h | h
  · refine Or.inl ⟨h, ?_⟩
    unfold sign_dir
    rw [if_neg (by omega), Int.ofNat_natAbs_of_nonpos (le_of_lt h),
      Int.ediv_neg, Int.ediv_self (by omega)]
  · exact Or.inr (Or.inl ⟨h, by simp [sign_dir, h]⟩)
  · refine Or.inr (Or.inr ⟨h, ?_⟩)
    unfold sign_dir
    rw [if_neg (by omega), Int.natAbs_of_nonneg (le_of_lt h),
      Int.ediv_self (by omega)]

/-- The sign step of `models.King.get_path` strictly decreases the Chebyshev
distance to the destination. -/
theorem king_sign_step_progress (dest c : Pos) (hne : c ≠ dest) :
    max ((king_sign_step dest c).x - dest.x).natAbs
        ((king_sign_step dest c).y - dest.y).natAbs <
      max (c.x - dest.x).natAbs (c.y - dest.y).natAbs := by
  have hne2 : c.x ≠ dest.x ∨ c.y ≠ dest.y := (Pos.ne_iff c dest).mp hne
  obtain ⟨h1, e1⟩ | ⟨h1, e1⟩ | ⟨h1, e1⟩ := sign_dir_cases (dest.x - c.x) <;>
    obtain ⟨h2, e2⟩ | ⟨h2, e2⟩ | ⟨h2, e2⟩ := sign_dir_cases (dest.y - c.y) <;>
    simp only [king_sign_step, e1, e2] <;> omega

/-- A valid non-null King move (the `models.py` path routine) gives a
terminating path ending at the destination and avoiding the origin. -/
theorem king_models_path_spec (pos dest : Pos)
    (hv : king_is_valid_move pos dest = true) (hne : pos ≠ dest) :
    ∃ p pre, king_get_path_models pos dest = Except.ok p ∧ p = pre ++ [dest] ∧
      pos ∉ p := by
  have hgo : king_get_path_models pos dest =
      run_path (king_sign_step dest) pos dest := by
    simp [king_get_path_models, hv]
  rw [hgo]
  refine run_path_ok _ _ _
    (fun c => max (c.x - dest.x).natAbs (c.y - dest.y).natAbs)
    (fun _ => True) ?_ trivial ?_ hne
  · intro c _ hcne
    exact ⟨trivial, king_sign_step_progress dest c hcne⟩
  · simp [path_fuel]; omega

/-- A white pawn's accepted MOVE destination lies strictly above it (smaller
rank); a black pawn's strictly below. -/
theorem pawn_valid_move_dir (color : Color) (pos dest : Pos)
    (hv : pawn_is_valid_move color pos dest = true) :
    (color = Color.WHITE ∧ dest.x < pos.x) ∨
      (color = Color.BLACK ∧ pos.x < dest.x) := by
  unfold pawn_is_valid_move at hv
  cases color with
  | WHITE =>
    refine Or.inl ⟨rfl, ?_⟩
    split at hv
    · next h =>
      have hx : pos.x = 6 := by
        simpa [pawn_is_first_move] using h
      simp at hv
      omega
    · simp at hv
      omega
  | BLACK =>
    refine Or.inr ⟨rfl, ?_⟩
    split at hv
    · next h =>
      have hx : pos.x = 1 := by
        simpa [pawn_is_first_move] using h
      simp at hv
      omega
    · simp at hv
      omega

/-- A valid pawn MOVE to a destination on the pawn's own file gives a
terminating path ending at the destination and avoiding the origin. -/
theorem pawn_path_spec (color : Color) (pos dest : Pos)
    (hv : pawn_is_valid_move color pos dest = true)
    (hin : is_outside_board dest = false) (hfile : pos.y = dest.y) :
    ∃ p pre, pawn_get_path color pos dest = Except.ok p ∧ p = pre ++ [dest] ∧
      pos ∉ p := by
  have hgo : pawn_get_path color pos dest =
      run_path (pawn_step color) pos dest := by
    simp [pawn_get_path, hv, hin]
  rw [hgo]
  rcases pawn_valid_move_dir color pos dest hv with ⟨hc, hdir⟩ | ⟨hc, hdir⟩ <;>
    subst hc
  · refine run_path_ok _ _ _ (fun c => (c.x - dest.x).natAbs)
      (fun c => c.y = dest.y ∧ dest.x ≤ c.x) ?_ ⟨hfile, le_of_lt hdir⟩ ?_ ?_
    · intro c ⟨hIy, hIx⟩ hcne
      have hcx : c.x ≠ dest.x := by
        rcases (Pos.ne_iff c dest).mp hcne with h | h
        exacts [h, absurd hIy h]
      simp only [pawn_step]
      refine ⟨⟨hIy, by omega⟩, by omega⟩
    · simp [path_fuel]; omega
    · simp [Pos.ne_iff]; omega
  · refine run_path_ok _ _ _ (fun c => (dest.x - c.x).natAbs)
      (fun c => c.y = dest.y ∧ c.x ≤ dest.x) ?_ ⟨hfile, le_of_lt hdir⟩ ?_ ?_
    · intro c ⟨hIy, hIx⟩ hcne
      have hcx : c.x ≠ dest.x := by
        rcases (Pos.ne_iff c dest).mp hcne with h | h
        exacts [h, absurd hIy h]
      simp only [pawn_step]
      refine ⟨⟨hIy, by omega⟩, by omega⟩
    · simp [path_fuel]; omega
    · simp [Pos.ne_iff]; omega

/-- A pawn-step loop whose current square is on a different file than the
destination never reaches it: the loop runs out of any amount of fuel (the
Python `while` spins forever). -/
theorem pawn_cross_file_loop_diverges (color : Color) (dest : Pos) :
    ∀ n curr, curr.y ≠ dest.y → pathLoop (pawn_step color) dest n curr = none := by
  intro n
  induction n with
  | zero =>
    intro curr hy
    have : curr ≠ dest := by simp [Pos.ne_iff]; tauto
    simp [pathLoop, this]
  | succ n ih =>
    intro curr hy
    have hne : curr ≠ dest := by simp [Pos.ne_iff]; tauto
    have hstep : (pawn_step color curr).y = curr.y := by
      cases color <;> simp [pawn_step]
    simp [pathLoop, hne, ih (pawn_step color curr) (by omega)]

/-! ### Claim theorems: piece level -/

/-- C3 counterexample: `Pawn._is_valid_move` accepts a MOVE whose
destination is on a different file (White pawn on (4,0), destination (3,5)),
so "a destination on a different file is rejected" is false. -/
theorem C3_counterexample :
    pawn_is_valid_move Color.WHITE (Pos.mk 4 0) (Pos.mk 3 5) = true ∧
      (Pos.mk 3 5).y ≠ (Pos.mk 4 0).y := by
  decide

/-- C3 (amended): `Pawn._is_valid_move` accepts a MOVE exactly when the
destination rank is a one-rank advance in the pawn's forward direction, or a
one- or two-rank advance when the pawn stands on its starting rank; the
destination file is not constrained. -/
theorem C3_pawn_move_rule (color : Color) (pos dest : Pos) :
    pawn_is_valid_move color pos dest = pawn_rank_rule color pos dest := by
  unfold pawn_is_valid_move pawn_rank_rule pawn_is_first_move
  cases color with
  | WHITE =>
    by_cases h6 : pos.x = 6
    · rw [if_pos (by simp [h6]), if_pos h6, decide_eq_decide, h6]
      simp
      tauto
    · rw [if_neg (by simp [h6]), if_neg h6, decide_eq_decide]
      simp
      omega
  | BLACK =>
    by_cases h1 : pos.x = 1
    · rw [if_pos (by simp [h1]), if_pos h1, decide_eq_decide, h1]
      simp
      tauto
    · rw [if_neg (by simp [h1]), if_neg h1, decide_eq_decide]
      simp
      omega

/-- C4 counterexample: the Knight accepts the in-bounds destination (5,2)
from (7,1), yet its `get_path` is empty, so the path's last element does not
equal the destination. -/
theorem C4_counterexample :
    knight_is_valid_move (Pos.mk 7 1) (Pos.mk 5 2) = true ∧
      is_outside_board (Pos.mk 5 2) = false ∧
      knight_get_path (Pos.mk 7 1) (Pos.mk 5 2) = [] ∧
      (knight_get_path (Pos.mk 7 1) (Pos.mk 5 2)).getLast? ≠
        some (Pos.mk 5 2) := by
  decide

/-- C4 (amended): for Rook, Bishop, Queen and King, for every in-bounds
destination distinct from the origin that the variant's own legality check
accepts, `get_path` terminates with a path that ends at the destination and
excludes the origin; the same holds for a Pawn when the destination is
additionally on the pawn's file; the Knight's `get_path` is always the empty
sequence (and a Pawn-accepted cross-file destination makes the loop run
forever, see `pawn_cross_file_loop_diverges`). -/
theorem C4_get_path_spec (pos dest : Pos) (color : Color)
    (hin : is_outside_board dest = false) (hne : pos ≠ dest) :
    (rook_is_valid_move pos dest = true →
      ∃ p pre, rook_get_path pos dest = Except.ok p ∧ p = pre ++ [dest] ∧
        pos ∉ p) ∧
    (bishop_is_valid_move pos dest = true →
      ∃ p pre, bishop_get_path pos dest = Except.ok p ∧ p = pre ++ [dest] ∧
        pos ∉ p) ∧
    (queen_is_valid_move pos dest = true →
      ∃ p pre, queen_get_path pos dest = Except.ok p ∧ p = pre ++ [dest] ∧
        pos ∉ p) ∧
    (king_is_valid_move pos dest = true →
      ∃ p pre, king_get_path_models pos dest = Except.ok p ∧
        p = pre ++ [dest] ∧ pos ∉ p) ∧
    (pawn_is_valid_move color pos dest = true → pos.y = dest.y →
      ∃ p pre, pawn_get_path color pos dest = Except.ok p ∧
        p = pre ++ [dest] ∧ pos ∉ p) ∧
    knight_get_path pos dest = [] := by
  refine ⟨fun hv => rook_path_spec pos dest hv hin,
    fun hv => bishop_path_spec pos dest hv hin hne,
    fun hv => queen_path_spec pos dest hv hin hne,
    fun hv => king_models_path_spec pos dest hv hne,
    fun hv hfile => pawn_path_spec color pos dest hv hin hfile,
    rfl⟩

/-- C4 witness: the amended theorem applied to the Rook move (7,0) to (4,0)
of the test suite. -/
theorem C4_get_path_spec_witness :
    rook_is_valid_move (Pos.mk 7 0) (Pos.mk 4 0) = true ∧
      ∃ p pre, rook_get_path (Pos.mk 7 0) (Pos.mk 4 0) = Except.ok p ∧
        p = pre ++ [Pos.mk 4 0] ∧ Pos.mk 7 0 ∉ p :=
  ⟨by decide,
    (C4_get_path_spec (Pos.mk 7 0) (Pos.mk 4 0) Color.WHITE (by decide)
      (by decide)).1 (by decide)⟩

/-- C5: `King._is_valid_move` is literally "(horizontal, vertical, or
diagonal) and taxicab distance at most two", and the two-square straight
move (7,4) to (5,4) along file 4 passes both `is_one_step` and the King's
check. -/
theorem C5_king_rule :
    (∀ pos dest : Pos, king_is_valid_move pos dest = king_claim_rule pos dest) ∧
      is_one_step (Pos.mk 7 4) (Pos.mk 5 4) = true ∧
      king_is_valid_move (Pos.mk 7 4) (Pos.mk 5 4) = true := by
  refine ⟨fun pos dest => ?_, by decide, by decide⟩
  simp only [king_is_valid_move, king_claim_rule, is_horizontal_move,
    is_vertical_move, is_diagonal_move, is_one_step, ← Bool.decide_or,
    ← Bool.decide_and, decide_eq_decide]
  tauto

/-- C10: Bishop, Queen and King accept a MOVE whose destination equals the
current square (the zero-distance case counts as diagonal), and with the
piece on the board `move` succeeds leaving the position unchanged; the Rook
rejects the same null move and `move` raises. -/
theorem C10_null_moves (pos : Pos) (color : Color)
    (hin : is_outside_board pos = false) :
    bishop_is_valid_move pos pos = true ∧
      queen_is_valid_move pos pos = true ∧
      king_is_valid_move pos pos = true ∧
      piece_move_MOVE Category.BISHOP color pos pos = Except.ok pos ∧
      piece_move_MOVE Category.QUEEN color pos pos = Except.ok pos ∧
      piece_move_MOVE Category.KING color pos pos = Except.ok pos ∧
      rook_is_valid_move pos pos = false ∧
      piece_move_MOVE Category.ROOK color pos pos = Except.error () := by
  have hb : bishop_is_valid_move pos pos = true := by
    simp [bishop_is_valid_move]
  have hq : queen_is_valid_move pos pos = true := by
    simp [queen_is_valid_move, is_diagonal_move]
  have hk : king_is_valid_move pos pos = true := by
    simp [king_is_valid_move, is_diagonal_move, is_one_step]
  have hr : rook_is_valid_move pos pos = false := by
    simp [rook_is_valid_move, is_horizontal_move, is_vertical_move]
  refine ⟨hb, hq, hk, ?_, ?_, ?_, hr, ?_⟩ <;>
    simp [piece_move_MOVE, is_valid_move_for, hin, hb, hq, hk, hr]

/-- C10 witness: the null-move theorem at square (4,4) for a White piece. -/
theorem C10_null_moves_witness :
    is_outside_board (Pos.mk 4 4) = false ∧
      (bishop_is_valid_move (Pos.mk 4 4) (Pos.mk 4 4) = true ∧
        queen_is_valid_move (Pos.mk 4 4) (Pos.mk 4 4) = true ∧
        king_is_valid_move (Pos.mk 4 4) (Pos.mk 4 4) = true ∧
        piece_move_MOVE Category.BISHOP Color.WHITE (Pos.mk 4 4) (Pos.mk 4 4) =
          Except.ok (Pos.mk 4 4) ∧
        piece_move_MOVE Category.QUEEN Color.WHITE (Pos.mk 4 4) (Pos.mk 4 4) =
          Except.ok (Pos.mk 4 4) ∧
        piece_move_MOVE Category.KING Color.WHITE (Pos.mk 4 4) (Pos.mk 4 4) =
          Except.ok (Pos.mk 4 4) ∧
        rook_is_valid_move (Pos.mk 4 4) (Pos.mk 4 4) = false ∧
        piece_move_MOVE Category.ROOK Color.WHITE (Pos.mk 4 4) (Pos.mk 4 4) =
          Except.error ()) :=
  ⟨by decide, C10_null_moves (Pos.mk 4 4) Color.WHITE (by decide)⟩


/-! ### Board lemmas -/

/-- Overwriting a piece with one that differs only in position leaves the
category/colour projection of the list unchanged. -/
theorem map_set_position (ps : List Piece) (i : Nat) (p : Piece) (d : Pos)
    (hpi : ps[i]? = some p) :
    (ps.set i { p with position := d }).map (fun q => (q.category, q.color)) =
      ps.map (fun q => (q.category, q.color)) := by
  induction ps generalizing i with
  | nil => simp at hpi
  | cons a l ih =>
    cases i with
    | zero =>
      simp at hpi
      subst hpi
      simp
    | succ n =>
      simp only [List.set_cons_succ, List.map_cons]
      rw [ih n (by simpa using hpi)]

/-- With a real destination the candidate loop never crashes: the
`TypeError` abort needs a `None` destination to subscript. -/
theorem move_loop_no_crash (move : Movement) (d : Pos)
    (hd : move.nextPosition = some d) :
    ∀ idxs ps (moved : Bool) ps2,
      move_loop move ps idxs moved ≠ LoopRes.crashed ps2 := by
  intro idxs
  induction idxs with
  | nil =>
    intro ps moved ps2 h
    simp [move_loop] at h
  | cons i rest ih =>
    intro ps moved ps2 h
    cases hpi : ps[i]? with
    | none =>
      simp only [move_loop, hpi] at h
      exact ih ps moved ps2 h
    | some p =>
      simp only [move_loop, hpi, hd] at h
      by_cases hk : move.category ≠ Category.KNIGHT
      · rw [if_pos hk] at h
        cases hgp : get_path_board p d with
        | error e =>
          cases e <;> rw [hgp] at h <;> dsimp only at h
          · exact ih ps moved ps2 h
          · cases h
        | ok path =>
          rw [hgp] at h
          dsimp only at h
          by_cases hob : piece_in_the_way ps i path = true
          · rw [if_pos hob] at h
            exact ih ps moved ps2 h
          · rw [if_neg hob] at h
            cases hmv : piece_move_MOVE p.category p.color p.position d with
            | error u =>
              rw [hmv] at h
              dsimp only at h
              exact ih ps moved ps2 h
            | ok newPos =>
              rw [hmv] at h
              dsimp only at h
              exact ih _ true ps2 h
      · rw [if_neg hk] at h
        cases hmv : piece_move_MOVE p.category p.color p.position d with
        | error u =>
          rw [hmv] at h
          dsimp only at h
          exact ih ps moved ps2 h
        | ok newPos =>
          rw [hmv] at h
          dsimp only at h
          exact ih _ true ps2 h

/-- Master properties of the candidate loop, by one induction: a run that
reports `moved = false` entered with `moved = false` and kept the list
untouched; a crash returns the untouched list; and no run ever changes a
piece's category or colour (only positions are assigned). -/
theorem move_loop_master (move : Movement) :
    ∀ idxs ps (moved : Bool),
      (∀ ps2, move_loop move ps idxs moved = LoopRes.done ps2 false →
        ps2 = ps ∧ moved = false) ∧
      (∀ ps2, move_loop move ps idxs moved = LoopRes.crashed ps2 → ps2 = ps) ∧
      (move_loop move ps idxs moved).pieces.map (fun q => (q.category, q.color)) =
        ps.map (fun q => (q.category, q.color)) := by
  intro idxs
  induction idxs with
  | nil =>
    intro ps moved
    refine ⟨fun ps2 h => ?_, fun ps2 h => ?_, ?_⟩
    · simp [move_loop] at h
      exact ⟨h.1.symm, h.2⟩
    · simp [move_loop] at h
    · simp [move_loop, LoopRes.pieces]
  | cons i rest ih =>
    intro ps moved
    cases hpi : ps[i]? with
    | none =>
      simp only [move_loop, hpi]
      exact ih ps moved
    | some p =>
      cases hnp : move.nextPosition with
      | none =>
        simp only [move_loop, hpi, hnp]
        refine ⟨fun ps2 h => ?_, fun ps2 h => ?_, ?_⟩
        · cases h
        · cases h
          rfl
        · simp [LoopRes.pieces]
      | some d =>
        simp only [move_loop, hpi, hnp]
        by_cases hk : move.category ≠ Category.KNIGHT
        · rw [if_pos hk]
          cases hgp : get_path_board p d with
          | error e =>
            cases e <;> simp only [hgp]
            · exact ih ps moved
            · refine ⟨fun ps2 h => ?_, fun ps2 h => ?_, ?_⟩
              · cases h
              · cases h
              · simp [LoopRes.pieces]
          | ok path =>
            simp only [hgp]
            by_cases hob : piece_in_the_way ps i path = true
            · rw [if_pos hob]
              exact ih ps moved
            · rw [if_neg hob]
              cases hmv : piece_move_MOVE p.category p.color p.position d with
              | error u =>
                simp only [hmv]
                exact ih ps moved
              | ok newPos =>
                simp only [hmv]
                obtain ⟨ihd, ihc, ihf⟩ :=
                  ih (ps.set i { p with position := newPos }) true
                refine ⟨fun ps2 h => ?_,
                  fun ps2 h => absurd h (move_loop_no_crash move d hnp rest _ true ps2), ?_⟩
                · exact absurd (ihd ps2 h).2 (by simp)
                · rw [ihf]
                  exact map_set_position ps i p newPos hpi
        · rw [if_neg hk]
          cases hmv : piece_move_MOVE p.category p.color p.position d with
          | error u =>
            simp only [hmv]
            exact ih ps moved
          | ok newPos =>
            simp only [hmv]
            obtain ⟨ihd, ihc, ihf⟩ :=
              ih (ps.set i { p with position := newPos }) true
            refine ⟨fun ps2 h => ?_,
              fun ps2 h => absurd h (move_loop_no_crash move d hnp rest _ true ps2), ?_⟩
            · exact absurd (ihd ps2 h).2 (by simp)
            · rw [ihf]
              exact map_set_position ps i p newPos hpi

/-! ### Claim theorems: Board level -/

/-- C7: whenever `perform_movement` raises (either `InvalidMovement` or the
`TypeError` of the unimplemented disambiguation / `None` destination), the
returned piece list is exactly the input list: no piece was moved. -/
theorem C7_failure_atomicity (ps : List Piece) (move : Movement)
    (color : Color) (e : BoardErr) (ps2 : List Piece)
    (h : perform_movement ps move color = PerformRes.err e ps2) : ps2 = ps := by
  unfold perform_movement at h
  cases hgp : get_possible_pieces ps move color with
  | error e0 =>
    rw [hgp] at h
    dsimp only at h
    injection h with h1 h2
    exact h2.symm
  | ok cand =>
    rw [hgp] at h
    dsimp only at h
    split at h
    · cases cand with
      | none =>
        dsimp only at h
        injection h with h1 h2
        exact h2.symm
      | some idxs =>
        dsimp only at h
        cases hloop : move_loop move ps idxs false with
        | done ps3 moved =>
          rw [hloop] at h
          dsimp only at h
          split at h
          · cases h
          · next hm =>
            injection h with h1 h2
            have hmf : moved = false := by simpa using hm
            rw [hmf] at hloop
            exact h2.symm.trans ((move_loop_master move idxs ps false).1 ps3 hloop).1
        | crashed ps3 =>
          rw [hloop] at h
          dsimp only at h
          injection h with h1 h2
          exact h2.symm.trans ((move_loop_master move idxs ps false).2.1 ps3 hloop)
        | hung ps3 =>
          rw [hloop] at h
          dsimp only at h
          cases h
    · injection h with h1 h2
      exact h2.symm

/-- C7 witness: a MOVE onto the mover's own occupied square fails and the
theorem reports the board unchanged. -/
theorem C7_failure_atomicity_witness :
    perform_movement [Piece.mk Category.PAWN Color.WHITE (Pos.mk 6 0)]
        (Movement.mk Category.PAWN Action.MOVE (some (Pos.mk 6 0)) none none none)
        Color.WHITE =
      PerformRes.err BoardErr.invalidMovement
        [Piece.mk Category.PAWN Color.WHITE (Pos.mk 6 0)] ∧
    [Piece.mk Category.PAWN Color.WHITE (Pos.mk 6 0)] =
      [Piece.mk Category.PAWN Color.WHITE (Pos.mk 6 0)] :=
  ⟨by decide,
    C7_failure_atomicity [Piece.mk Category.PAWN Color.WHITE (Pos.mk 6 0)]
      (Movement.mk Category.PAWN Action.MOVE (some (Pos.mk 6 0)) none none none)
      Color.WHITE BoardErr.invalidMovement
      [Piece.mk Category.PAWN Color.WHITE (Pos.mk 6 0)] (by decide)⟩

/-- C8: every request whose action is not MOVE (its destination a real
square, or — as the parser builds castling requests — a `None` destination on
a non-pawn category) raises `InvalidMovement` and leaves the board exactly as
it was: no action other than plain MOVE is ever applied. -/
theorem C8_non_move_rejected (ps : List Piece) (move : Movement)
    (color : Color) (h1 : move.action ≠ Action.MOVE)
    (h2 : move.category = Category.PAWN → ∃ d, move.nextPosition = some d) :
    perform_movement ps move color =
      PerformRes.err BoardErr.invalidMovement ps := by
  have hcond : ¬ (move.action = Action.MOVE ∧
      is_square_empty ps move.nextPosition = true) := fun hc => h1 hc.1
  unfold perform_movement
  cases hgp : get_possible_pieces ps move color with
  | error e0 =>
    exfalso
    unfold get_possible_pieces at hgp
    by_cases hp : move.category = Category.PAWN
    · rw [if_pos hp] at hgp
      obtain ⟨d, hd⟩ := h2 hp
      rw [hd] at hgp
      cases hgp
    · rw [if_neg hp] at hgp
      split at hgp <;> cases hgp
  | ok cand =>
    dsimp only
    rw [if_neg hcond]

/-- C8 witness: a CAPTURE request with an on-board destination is rejected
with `InvalidMovement` and the board is unchanged. -/
theorem C8_non_move_rejected_witness :
    perform_movement
        [Piece.mk Category.PAWN Color.WHITE (Pos.mk 3 3),
          Piece.mk Category.PAWN Color.BLACK (Pos.mk 2 4)]
        (Movement.mk Category.PAWN Action.CAPTURE (some (Pos.mk 2 4)) none none none)
        Color.WHITE =
      PerformRes.err BoardErr.invalidMovement
        [Piece.mk Category.PAWN Color.WHITE (Pos.mk 3 3),
          Piece.mk Category.PAWN Color.BLACK (Pos.mk 2 4)] :=
  C8_non_move_rejected
    [Piece.mk Category.PAWN Color.WHITE (Pos.mk 3 3),
      Piece.mk Category.PAWN Color.BLACK (Pos.mk 2 4)]
    (Movement.mk Category.PAWN Action.CAPTURE (some (Pos.mk 2 4)) none none none)
    Color.WHITE (by decide) (fun _ => ⟨Pos.mk 2 4, rfl⟩)

/-- C9: `perform_movement` never adds or removes a piece and never changes a
piece's category or colour — the category/colour projection of the piece
list is identical before and after every call (only positions can change). -/
theorem C9_frame (ps : List Piece) (move : Movement) (color : Color) :
    (perform_movement ps move color).pieces.map (fun q => (q.category, q.color)) =
      ps.map (fun q => (q.category, q.color)) := by
  unfold perform_movement
  cases hgp : get_possible_pieces ps move color with
  | error e0 => rfl
  | ok cand =>
    dsimp only
    split
    · cases cand with
      | none => rfl
      | some idxs =>
        dsimp only
        have hf := (move_loop_master move idxs ps false).2.2
        cases hloop : move_loop move ps idxs false with
        | done ps3 moved =>
          rw [hloop] at hf
          dsimp only [LoopRes.pieces] at hf
          cases moved <;> simp [PerformRes.pieces, hf]
        | crashed ps3 =>
          rw [hloop] at hf
          dsimp only [LoopRes.pieces] at hf
          simpa [PerformRes.pieces] using hf
        | hung ps3 =>
          rw [hloop] at hf
          dsimp only [LoopRes.pieces] at hf
          simpa [PerformRes.pieces] using hf
    · rfl

/-- C1 (code evaluated at the failing input): on a board of two White
Knights on distinct squares b1=(7,1) and f1=(7,5), the MOVE request "Nd2" to
the empty square (6,3) succeeds but moves BOTH knights there (the candidate
loop has no break), so more than one piece changes position and two pieces
end on the same square. -/
theorem C1_move_changes_two_pieces :
    distinct_squares
      [Piece.mk Category.KNIGHT Color.WHITE (Pos.mk 7 1),
        Piece.mk Category.KNIGHT Color.WHITE (Pos.mk 7 5)] ∧
    perform_movement
        [Piece.mk Category.KNIGHT Color.WHITE (Pos.mk 7 1),
          Piece.mk Category.KNIGHT Color.WHITE (Pos.mk 7 5)]
        (Movement.mk Category.KNIGHT Action.MOVE (some (Pos.mk 6 3)) none none none)
        Color.WHITE =
      PerformRes.ok
        [Piece.mk Category.KNIGHT Color.WHITE (Pos.mk 6 3),
          Piece.mk Category.KNIGHT Color.WHITE (Pos.mk 6 3)] ∧
    ¬ distinct_squares
        [Piece.mk Category.KNIGHT Color.WHITE (Pos.mk 6 3),
          Piece.mk Category.KNIGHT Color.WHITE (Pos.mk 6 3)] := by
  refine ⟨?_, ?_, ?_⟩
  · unfold distinct_squares
    decide
  · decide
  · unfold distinct_squares
    decide

/-- C2 (code evaluated at the failing input): parsing "Nbd2" does give a
Knight MOVE to (6,3) with disambiguation file 1, but performing it on the
board with White Knights at (7,1) and (7,5) hits the unimplemented
disambiguation branch: `_get_possible_pieces` returns `None` and the
candidate loop raises `TypeError`, moving no piece at all. -/
theorem C2_disambiguation_unimplemented :
    parse ("Nbd2".toList) =
      some (Movement.mk Category.KNIGHT Action.MOVE (some (Pos.mk 6 3))
        none (some 1) none) ∧
    get_possible_pieces
        [Piece.mk Category.KNIGHT Color.WHITE (Pos.mk 7 1),
          Piece.mk Category.KNIGHT Color.WHITE (Pos.mk 7 5)]
        (Movement.mk Category.KNIGHT Action.MOVE (some (Pos.mk 6 3))
          none (some 1) none)
        Color.WHITE = (Except.ok none : Except BoardErr (Option (List Nat))) ∧
    perform_movement
        [Piece.mk Category.KNIGHT Color.WHITE (Pos.mk 7 1),
          Piece.mk Category.KNIGHT Color.WHITE (Pos.mk 7 5)]
        (Movement.mk Category.KNIGHT Action.MOVE (some (Pos.mk 6 3))
          none (some 1) none)
        Color.WHITE =
      PerformRes.err BoardErr.typeError
        [Piece.mk Category.KNIGHT Color.WHITE (Pos.mk 7 1),
          Piece.mk Category.KNIGHT Color.WHITE (Pos.mk 7 5)] := by
  refine ⟨?_, by rfl, by decide⟩
  decide

/-- C6 (code evaluated at the failing input of `test_pawn_white_capture_1`):
a CAPTURE onto the occupied square (2,4) raises `InvalidMovement` — the
`perform_movement` of `chess.py` implements no CAPTURE branch at all and its
`Board.__init__` keeps no captured list — so no piece is removed, where the
test and the spec expect the black pawn to be captured. -/
theorem C6_capture_not_implemented :
    is_square_empty
        [Piece.mk Category.PAWN Color.WHITE (Pos.mk 3 3),
          Piece.mk Category.PAWN Color.BLACK (Pos.mk 2 4),
          Piece.mk Category.KING Color.WHITE (Pos.mk 0 5),
          Piece.mk Category.KING Color.BLACK (Pos.mk 7 5)]
        (some (Pos.mk 2 4)) = false ∧
    perform_movement
        [Piece.mk Category.PAWN Color.WHITE (Pos.mk 3 3),
          Piece.mk Category.PAWN Color.BLACK (Pos.mk 2 4),
          Piece.mk Category.KING Color.WHITE (Pos.mk 0 5),
          Piece.mk Category.KING Color.BLACK (Pos.mk 7 5)]
        (Movement.mk Category.PAWN Action.CAPTURE (some (Pos.mk 2 4)) none none none)
        Color.WHITE =
      PerformRes.err BoardErr.invalidMovement
        [Piece.mk Category.PAWN Color.WHITE (Pos.mk 3 3),
          Piece.mk Category.PAWN Color.BLACK (Pos.mk 2 4),
          Piece.mk Category.KING Color.WHITE (Pos.mk 0 5),
          Piece.mk Category.KING Color.BLACK (Pos.mk 7 5)] := by
  exact ⟨by decide, by decide⟩

end ChessCli
